import Mathlib

/-!
Verification of the schema-inference core of the neolea-velocity-dashboard
repository (src/backend/columns.py, src/backend/ingest.py).

The Python functions are shallowly embedded: cell values are the strings
pandas produces for them (astype(str)), regular-expression search is embedded
by a small executable matcher over an explicit regex syntax, and hashlib.sha1
is embedded as a full SHA-1 implementation over the UTF-8 bytes of the input
(proofs about profile keys only ever use it through congruence).
-/

namespace NeoleaSpec

/-- Python "sep".join(xs): the elements of xs interleaved with sep. -/
def pyJoin (sep : String) : List String → String
  | [] => ""
  | [x] => x
  | x :: y :: xs => x ++ sep ++ pyJoin sep (y :: xs)

/-- Is the first character list a prefix of the second? -/
def charsPre : List Char → List Char → Bool
  | [], _ => true
  | _ :: _, [] => false
  | a :: as, b :: bs => a == b && charsPre as bs

/-- Does the needle occur as a contiguous run inside the hay? -/
def charsSub (needle : List Char) : List Char → Bool
  | [] => charsPre needle []
  | c :: cs => charsPre needle (c :: cs) || charsSub needle cs

/-- Python "needle in hay" substring test. -/
def containsSub (hay needle : String) : Bool :=
  charsSub needle.toList hay.toList

/-- Python str.lower on the ASCII strings of these reports, written over the
character list so that proofs can evaluate it. -/
def pyLower (s : String) : String := String.mk (s.toList.map Char.toLower)

/-- Python str.upper, written over the character list. -/
def pyUpper (s : String) : String := String.mk (s.toList.map Char.toUpper)

/-- Python str.strip: drop whitespace from both ends. -/
def pyStrip (s : String) : String :=
  String.mk
    (((s.toList.dropWhile Char.isWhitespace).reverse.dropWhile
      Char.isWhitespace).reverse)

/-- Python str.startswith. -/
def pyStarts (s pre : String) : Bool := charsPre pre.toList s.toList

/-- Collapse every maximal run of whitespace characters to a single space,
as re.sub of one-or-more-whitespace with a single space does.  The Bool flag
records whether the previous character was part of a whitespace run. -/
def collapseWsAux : Bool → List Char → List Char
  | _, [] => []
  | inRun, c :: cs =>
    if c.isWhitespace then
      if inRun then collapseWsAux true cs else ' ' :: collapseWsAux true cs
    else c :: collapseWsAux false cs

/-- re.sub collapsing whitespace runs to one space, over a whole string. -/
def collapseWs (s : String) : String :=
  String.mk (collapseWsAux false s.toList)

/-- columns.py _norm: s.strip().lower() with whitespace runs collapsed. -/
def _norm (s : String) : String :=
  collapseWs (pyLower (pyStrip s))

/-- ingest.py _norm_cell on the string form of a cell: strip, and treat
placeholder names starting with "unnamed" (case-insensitively) as empty. -/
def _norm_cell (x : String) : String :=
  let s := pyStrip x
  if pyStarts (pyLower s) "unnamed" then "" else s

/-- Python re word character (ASCII): letters, digits and underscore. -/
def isWordChar (c : Char) : Bool := c.isAlphanum || c == '_'

/-- Word boundary between two positions of the subject string; none stands
for the start or the end of the string. -/
def wordBoundary (a b : Option Char) : Bool :=
  (match a with | none => false | some c => isWordChar c)
    != (match b with | none => false | some c => isWordChar c)

/-- Syntax of the regular expressions appearing in the repository: literal
characters, the dot, the whitespace class, word boundaries, the two anchors,
sequencing, alternation, option and star. -/
inductive RE where
  | eps : RE
  | ch (c : Char) : RE
  | dot : RE
  | ws : RE
  | bound : RE
  | bos : RE
  | eos : RE
  | seq (a b : RE) : RE
  | alt (a b : RE) : RE
  | opt (a : RE) : RE
  | star (a : RE) : RE
deriving DecidableEq, Repr

/-- Size of a regex term, used to compute a sufficient fuel for matching. -/
def reSize : RE → Nat
  | .eps | .ch _ | .dot | .ws | .bound | .bos | .eos => 1
  | .seq a b | .alt a b => reSize a + reSize b + 1
  | .opt a | .star a => reSize a + 1

/-- One matching step: given a regex, the previous character (none at the
start of the subject) and the remaining characters, return the list of
states (previous character, remaining characters) the match can end in.
Fuel bounds the recursion; rxSearch always supplies enough of it. -/
def rmatch : Nat → RE → Option Char → List Char → List (Option Char × List Char)
  | 0, _, _, _ => []
  | _ + 1, .eps, prev, cs => [(prev, cs)]
  | _ + 1, .ch c, prev, cs =>
    match prev, cs with
    | _, [] => []
    | _, a :: rest => if a == c then [(some a, rest)] else []
  | _ + 1, .dot, prev, cs =>
    match prev, cs with
    | _, [] => []
    | _, a :: rest => if a == '\n' then [] else [(some a, rest)]
  | _ + 1, .ws, prev, cs =>
    match prev, cs with
    | _, [] => []
    | _, a :: rest => if a.isWhitespace then [(some a, rest)] else []
  | _ + 1, .bound, prev, cs =>
    if wordBoundary prev cs.head? then [(prev, cs)] else []
  | _ + 1, .bos, prev, cs =>
    match prev with
    | none => [(none, cs)]
    | some _ => []
  | _ + 1, .eos, prev, cs =>
    if cs == [] || cs == ['\n'] then [(prev, cs)] else []
  | fuel + 1, .seq a b, prev, cs =>
    (rmatch fuel a prev cs).flatMap (fun st => rmatch fuel b st.1 st.2)
  | fuel + 1, .alt a b, prev, cs =>
    rmatch fuel a prev cs ++ rmatch fuel b prev cs
  | fuel + 1, .opt a, prev, cs =>
    (prev, cs) :: rmatch fuel a prev cs
  | fuel + 1, .star a, prev, cs =>
    (prev, cs) :: (rmatch fuel a prev cs).flatMap (fun st =>
      if st.2.length < cs.length then rmatch fuel (.star a) st.1 st.2 else [])

/-- All start positions of a subject, as (previous character, suffix) pairs. -/
def searchStates : Option Char → List Char → List (Option Char × List Char)
  | prev, [] => [(prev, [])]
  | prev, c :: cs => (prev, c :: cs) :: searchStates (some c) cs

/-- Python re.search: does the regex match at some position of the string? -/
def rxSearch (r : RE) (s : String) : Bool :=
  let cs := s.toList
  let fuel := (cs.length + 2) * (reSize r + 2)
  (searchStates none cs).any (fun st => !(rmatch fuel r st.1 st.2).isEmpty)

/-- A sequence of regexes. -/
def reseq (rs : List RE) : RE := rs.foldr RE.seq .eps

/-- The regex matching a literal string. -/
def relit (s : String) : RE := reseq (s.toList.map RE.ch)

/-- A literal string bracketed by word boundaries. -/
def relitB (s : String) : RE := reseq [.bound, relit s, .bound]

/-- A literal string anchored to the whole subject. -/
def relitX (s : String) : RE := reseq [.bos, relit s, .eos]

/-! ### columns.py: default role patterns and the suggestion matcher -/

/-- columns.py DEFAULT_PATTERNS for brand, in order. -/
def brandPats : List RE :=
  [ relitX "brand",
    reseq [.bos, relit "brand", .star .ws, relit "name", .eos],
    relitB "brand" ]

/-- columns.py DEFAULT_PATTERNS for chain, in order. -/
def chainPats : List RE :=
  [ reseq [.bos, relit "ret", .opt (relit "ailer"), .eos],
    relitX "banner",
    relitX "chain",
    reseq [relit "row", .star .ws, relit "labels"],
    reseq [.bound, relit "ret", .star .dot, relit "label"],
    reseq [.bound, relit "banner"],
    reseq [.bound, relit "chain"] ]

/-- columns.py DEFAULT_PATTERNS for units, in order. -/
def unitsPats : List RE :=
  [ reseq [.bound, relit "unit", .opt (.ch 's'), .bound],
    reseq [.bound, relit "sum", .star .ws, relit "of", .star .ws,
           relit "unit", .opt (.ch 's'), .bound],
    reseq [relit "units", .star .dot, relit "4w"],
    reseq [relit "4w", .star .dot, relit "units"] ]

/-- columns.py DEFAULT_PATTERNS for dollars, in order. -/
def dollarsPats : List RE :=
  [ reseq [.bound, relit "dollar", .opt (.ch 's'), .bound],
    relitB "sales",
    reseq [.bos, .ch '$', .star .dot],
    reseq [.bound, relit "sum", .star .ws, relit "of", .star .ws,
           relit "dollar", .opt (.ch 's'), .bound],
    reseq [relit "dollars", .star .dot, relit "4w"],
    reseq [relit "4w", .star .dot, relit "dollars"] ]

/-- columns.py DEFAULT_PATTERNS for stores, in order. -/
def storesPats : List RE :=
  [ reseq [.bos, relit "store", .opt (.ch 's'), .eos],
    reseq [.bound, relit "stores", .star .ws, relit "selling", .bound],
    reseq [.bound, relit "num", .star .dot, relit "stores", .bound],
    reseq [relit "door", .star .dot, relit "count"],
    reseq [.bound, relit "door", .opt (.ch 's'), .bound] ]

/-- columns.py DEFAULT_PATTERNS for acv, in order. -/
def acvPats : List RE :=
  [ relitB "acv",
    reseq [.bound, relit "acv", .star .ws, relit "weighted", .bound],
    reseq [.bound, .opt (.ch '%'), .star .ws, relit "acv", .bound],
    reseq [relit "tdp", .star .dot, relit "acv"],
    reseq [relit "weighted", .star .ws, relit "dist"] ]

/-- columns.py _match_one: outer loop over the patterns in order, inner loop
over the column names in order; the first hit wins. -/
def _match_one (colnames : List String) : List RE → Option String
  | [] => none
  | pat :: pats =>
    match colnames.find? (fun c => rxSearch pat c) with
    | some c => some c
    | none => _match_one colnames pats

/-- The fixed set of semantic roles of the schema. -/
inductive SemanticRole where
  | brand | chain | units | dollars | stores | acv
deriving DecidableEq, Repr

/-- A role-to-header mapping as returned by suggest_mapping. -/
structure ColumnMapping where
  brand : Option String
  chain : Option String
  units : Option String
  dollars : Option String
  stores : Option String
  acv : Option String
deriving DecidableEq, Repr

/-- Projection of a ColumnMapping at a role. -/
def ColumnMapping.get (m : ColumnMapping) : SemanticRole → Option String
  | .brand => m.brand
  | .chain => m.chain
  | .units => m.units
  | .dollars => m.dollars
  | .stores => m.stores
  | .acv => m.acv

/-- columns.py suggest_mapping: normalize the headers and match each role's
pattern list against the normalized names. -/
def suggest_mapping (headers : List String) : ColumnMapping :=
  let cols := headers.map _norm
  { brand := _match_one cols brandPats,
    chain := _match_one cols chainPats,
    units := _match_one cols unitsPats,
    dollars := _match_one cols dollarsPats,
    stores := _match_one cols storesPats,
    acv := _match_one cols acvPats }

/-! ### columns.py: profile keys (SHA-1 over a normalized fingerprint) -/

/-- Reduction modulo 2 to the 32, the word size of SHA-1. -/
def w32 (x : Nat) : Nat := x % 4294967296

/-- Left rotation of a 32-bit word by n bits. -/
def rotl32 (x n : Nat) : Nat := w32 (x * 2 ^ n) + x / 2 ^ (32 - n)

/-- The SHA-1 round constants. -/
def sha1K (t : Nat) : Nat :=
  if t < 20 then 1518500249
  else if t < 40 then 1859775393
  else if t < 60 then 2400959708
  else 3395469782

/-- The SHA-1 round functions; complement is taken within 32 bits. -/
def sha1F (t b c d : Nat) : Nat :=
  if t < 20 then (b &&& c) ||| ((4294967295 - b) &&& d)
  else if t < 40 then b ^^^ c ^^^ d
  else if t < 60 then (b &&& c) ||| (b &&& d) ||| (c &&& d)
  else b ^^^ c ^^^ d

/-- SHA-1 message padding over a byte list: append the 0x80 marker, zero
bytes up to 56 modulo 64, then the bit length as eight big-endian bytes. -/
def sha1Pad (msg : List Nat) : List Nat :=
  let len := msg.length
  let zeros := (120 - ((len + 1) % 64)) % 64
  let bitLen := len * 8
  msg ++ 128 :: List.replicate zeros 0
      ++ (List.range 8).map (fun i => bitLen / 2 ^ (8 * (7 - i)) % 256)

/-- Split a padded message into its 64-byte blocks. -/
def sha1Chunks (msg : List Nat) : List (List Nat) :=
  (List.range (msg.length / 64)).map (fun i => (msg.drop (64 * i)).take 64)

/-- The sixteen initial 32-bit words of a block, big-endian. -/
def sha1Words (chunk : List Nat) : List Nat :=
  (List.range 16).map (fun j =>
    chunk.getD (4 * j) 0 * 16777216 + chunk.getD (4 * j + 1) 0 * 65536
      + chunk.getD (4 * j + 2) 0 * 256 + chunk.getD (4 * j + 3) 0)

/-- Extend the word schedule by the given number of words. -/
def sha1Extend : Nat → List Nat → List Nat
  | 0, ws => ws
  | n + 1, ws =>
    let i := ws.length
    sha1Extend n (ws ++ [rotl32 (ws.getD (i - 3) 0 ^^^ ws.getD (i - 8) 0
      ^^^ ws.getD (i - 14) 0 ^^^ ws.getD (i - 16) 0) 1])

/-- One SHA-1 compression round. -/
def sha1Round (st : Nat × Nat × Nat × Nat × Nat) (tw : Nat × Nat) :
    Nat × Nat × Nat × Nat × Nat :=
  let (a, b, c, d, e) := st
  let (t, wt) := tw
  (w32 (rotl32 a 5 + sha1F t b c d + e + sha1K t + wt), a, rotl32 b 30, c, d)

/-- Process one 64-byte block, updating the five-word state. -/
def sha1Block (h : Nat × Nat × Nat × Nat × Nat) (chunk : List Nat) :
    Nat × Nat × Nat × Nat × Nat :=
  let ws := sha1Extend 64 (sha1Words chunk)
  let (h0, h1, h2, h3, h4) := h
  let (a, b, c, d, e) :=
    ((List.range 80).zip ws).foldl sha1Round (h0, h1, h2, h3, h4)
  (w32 (h0 + a), w32 (h1 + b), w32 (h2 + c), w32 (h3 + d), w32 (h4 + e))

/-- A lowercase hexadecimal digit. -/
def hexChar (n : Nat) : Char :=
  if n < 10 then Char.ofNat (48 + n) else Char.ofNat (87 + n)

/-- Eight hex digits of a 32-bit word, most significant first. -/
def toHex8 (x : Nat) : List Char :=
  (List.range 8).map (fun i => hexChar (x / 16 ^ (7 - i) % 16))

/-- SHA-1 of a byte list, as the usual 40-character lowercase hex digest. -/
def sha1Hex (msg : List Nat) : String :=
  let (h0, h1, h2, h3, h4) :=
    (sha1Chunks (sha1Pad msg)).foldl sha1Block
      (1732584193, 4023233417, 2562383102, 271733878, 3285377520)
  String.mk (toHex8 h0 ++ toHex8 h1 ++ toHex8 h2 ++ toHex8 h3 ++ toHex8 h4)

/-- columns.py _sha1_name: hex SHA-1 digest of the UTF-8 bytes of the name. -/
def _sha1_name (name : String) : String :=
  sha1Hex (name.toUTF8.toList.map (fun b => b.toNat))

/-- os.path.basename on a POSIX path: the part after the last slash. -/
def pyBasename (p : String) : String :=
  String.mk ((p.toList.reverse.takeWhile (fun c => c != '/')).reverse)

/-- Index of the last dot of a character list, if any. -/
def lastDotIdx : List Char → Option Nat
  | [] => none
  | c :: cs =>
    match lastDotIdx cs with
    | some i => some (i + 1)
    | none => if c = '.' then some 0 else none

/-- os.path.splitext root on a bare file name: cut at the last dot, except
when every character before it is a dot (hidden-file rule). -/
def splitextRoot (name : String) : String :=
  let cs := name.toList
  match lastDotIdx cs with
  | none => name
  | some i => if (cs.take i).any (fun c => c != '.') then String.mk (cs.take i) else name

/-- The header fingerprint of profile_key: the first 30 normalized headers
joined with a bar separator. -/
def profile_sig (headers : List String) : String :=
  pyJoin "|" ((headers.take 30).map _norm)

/-- The string profile_key hashes: base name, sheet name and fingerprint,
joined by double colons. -/
def profile_raw (file_name sheet_name : String) (headers : List String) : String :=
  splitextRoot (pyBasename file_name) ++ "::" ++ sheet_name ++ "::" ++ profile_sig headers

/-- columns.py profile_key. -/
def profile_key (file_name sheet_name : String) (headers : List String) : String :=
  _sha1_name (profile_raw file_name sheet_name headers)

/-! ### columns.py: the persisted profile store

The persisted document is modelled by its observable state: the file is
missing, the file exists but json.load raises, or the file parses to a map
of profile keys to role-to-header entries. -/

/-- State of the persisted profile document. -/
inductive ProfileDoc where
  | missing
  | unparseable
  | parsed (profiles : List (String × List (String × String)))
deriving DecidableEq, Repr

/-- columns.py load_profiles: a missing file and a parse failure both give
the empty map; otherwise the full parsed map is returned. -/
def load_profiles : ProfileDoc → List (String × List (String × String))
  | .missing => []
  | .unparseable => []
  | .parsed m => m

/-- columns.py get_saved_mapping: dict.get of the key on the loaded map. -/
def get_saved_mapping (doc : ProfileDoc) (key : String) :
    Option (List (String × String)) :=
  (load_profiles doc).lookup key

/-! ### ingest.py: date parsing from the file name -/

/-- Match two digit pairs separated by dashes (month, day, two-digit year)
at the head of the character list; anything may follow. -/
def parseDigits : List Char → Option (String × String × String)
  | m1 :: m2 :: c3 :: d1 :: d2 :: c6 :: y1 :: y2 :: _ =>
    if c3 == '-' && c6 == '-' && m1.isDigit && m2.isDigit && d1.isDigit
        && d2.isDigit && y1.isDigit && y2.isDigit then
      some (String.mk [m1, m2], String.mk [d1, d2], String.mk [y1, y2])
    else none
  | _ => none

/-- After the literal "ending": at least one whitespace character, then the
dashed digit groups.  Greedily consuming the whitespace run is equivalent to
the one-or-more-whitespace regex here because a digit is never whitespace. -/
def parseAfterEnding : List Char → Option (String × String × String)
  | [] => none
  | c :: rest =>
    if c.isWhitespace then parseDigits (rest.dropWhile Char.isWhitespace)
    else none

/-- Try the full "ending ..." pattern at this very position. -/
def matchEndingAt (cs : List Char) : Option (String × String × String) :=
  if charsPre "ending".toList cs then parseAfterEnding (cs.drop 6) else none

/-- re.search: try the pattern at every position, leftmost hit first. -/
def scanEnding : List Char → Option (String × String × String)
  | [] => none
  | c :: cs =>
    match matchEndingAt (c :: cs) with
    | some r => some r
    | none => scanEnding cs

/-- ingest.py _parse_dates_from_name: search the lowercased name for
"ending MM-DD-YY" and build report_date and report_month, else two nulls. -/
def _parse_dates_from_name (name : String) : Option String × Option String :=
  match scanEnding (pyLower name).toList with
  | none => (none, none)
  | some (mm, dd, yy) =>
    (some ("20" ++ yy ++ "-" ++ mm ++ "-" ++ dd),
     some ("20" ++ yy ++ "-" ++ mm ++ "-01"))

/-! ### ingest.py: locating the header row -/

/-- Does some cell of the row, stripped and lowercased, contain the anchor
phrase "row labels"? -/
def rowHasAnchor (row : List String) : Bool :=
  row.any (fun c => containsSub (pyLower (pyStrip c)) "row labels")

/-- Scan n consecutive rows starting at index i for the anchor. -/
def scanAnchor (grid : List (List String)) : Nat → Nat → Option Nat
  | _, 0 => none
  | i, n + 1 =>
    if rowHasAnchor (grid.getD i []) then some i else scanAnchor grid (i + 1) n

/-- ingest.py _find_header_row: first row among the first
min(max_scan, row count) rows containing the anchor phrase. -/
def _find_header_row (grid : List (List String)) (max_scan : Nat) : Option Nat :=
  scanAnchor grid 0 (min max_scan grid.length)

/-- ingest.py _find_header_block: the same scan; on success the header block
runs from max(0, anchor - 3) (truncated subtraction on Nat) to the anchor,
and data starts right below the anchor. -/
def _find_header_block (grid : List (List String)) (max_scan : Nat) :
    Option (Nat × Nat × Nat) :=
  match scanAnchor grid 0 (min max_scan grid.length) with
  | none => none
  | some e => some (e - 3, e, e + 1)

/-! ### ingest.py: the two period classifiers -/

/-- The flattened, normalized, uppercased text of the cells from five rows
above the header block start down to the header block end. -/
def blockText (grid : List (List String)) (start_hdr end_hdr : Nat) : String :=
  pyUpper (pyJoin " "
    (((grid.drop (start_hdr - 5)).take (end_hdr + 1 - (start_hdr - 5))).flatten.map
      _norm_cell))

/-- The week-count token of _guess_period_from_block: a word boundary, the
digits, optional whitespace, WK with an optional S, a word boundary. -/
def reWks (n : String) : RE :=
  reseq [.bound, relit n, .star .ws, relit "WK", .opt (.ch 'S'), .bound]

/-- ingest.py _guess_period_from_block: YTD as a plain substring first, then
the week counts in the order 4, 12, 24, 52, else unknown. -/
def _guess_period_from_block (grid : List (List String)) (start_hdr end_hdr : Nat) :
    String :=
  if containsSub (blockText grid start_hdr end_hdr) "YTD" then "YTD"
  else if rxSearch (reWks "4") (blockText grid start_hdr end_hdr) then "4"
  else if rxSearch (reWks "12") (blockText grid start_hdr end_hdr) then "12"
  else if rxSearch (reWks "24") (blockText grid start_hdr end_hdr) then "24"
  else if rxSearch (reWks "52") (blockText grid start_hdr end_hdr) then "52"
  else "unknown"

/-- The flattened lowercased text of the up-to-twelve rows above the header
row, cells and rows joined with bar separators. -/
def metaText (grid : List (List String)) (header_row : Nat) : String :=
  pyJoin " | "
    (((grid.drop (header_row - 12)).take (header_row - (header_row - 12))).map
      (fun r => pyJoin " | " (r.map pyLower)))

/-- The lenient week pattern of _guess_period_from_meta: the digits then
optional whitespace, w, optional ee, k, optional s, within word boundaries;
or the digits glued to wk; or the digits, a space and wks. -/
def reMetaWeek (n : String) : RE :=
  .alt (reseq [.bound, relit n, .star .ws, .ch 'w', .opt (relit "ee"),
               .ch 'k', .opt (.ch 's'), .bound])
    (.alt (relitB (n ++ "wk")) (relitB (n ++ " wks")))

/-- The YTD pattern of _guess_period_from_meta. -/
def reMetaYtd : RE := .alt (relitB "ytd") (relitB "year to date")

/-- ingest.py _guess_period_from_meta: the 4-week token first, then the
52-week token, then YTD, else unknown; hits are tagged 4W and 52W. -/
def _guess_period_from_meta (grid : List (List String)) (header_row : Nat) : String :=
  if rxSearch (reMetaWeek "4") (metaText grid header_row) then "4W"
  else if rxSearch (reMetaWeek "52") (metaText grid header_row) then "52W"
  else if rxSearch reMetaYtd (metaText grid header_row) then "YTD"
  else "unknown"

/-! ### ingest.py: column choice and the single-workbook ingest -/

/-- One step of the dict comprehension keyed by lowercased names: a repeated
key keeps its first position but takes the latest original name. -/
def lowDictInsert (acc : List (String × String)) (c : String) : List (String × String) :=
  let k := pyLower c
  if acc.any (fun p => p.1 == k) then
    acc.map (fun p => if p.1 == k then (k, c) else p)
  else acc ++ [(k, c)]

/-- The lowercased-name-to-original-name dict of _choose_col. -/
def lowDict (cols : List String) : List (String × String) :=
  cols.foldl lowDictInsert []

/-- ingest.py _choose_col: first pattern that hits some lowercased name wins
and yields the original name. -/
def _choose_col (cols : List String) : List RE → Option String
  | [] => none
  | pat :: pats =>
    match (lowDict cols).find? (fun e => rxSearch pat e.1) with
    | some e => some e.2
    | none => _choose_col cols pats

/-- The chain patterns of ingest_single_period: exactly "row labels", or the
words retailer or chain. -/
def ingChainPats : List RE :=
  [ relitX "row labels",
    reseq [.bound, .alt (relit "retailer") (relit "chain"), .bound] ]

/-- The units pattern of ingest_single_period. -/
def ingUnitsPats : List RE :=
  [ reseq [.bound, .opt (relit "sum of "), relit "units", .bound] ]

/-- The dollars pattern of ingest_single_period. -/
def ingDollarsPats : List RE :=
  [ .alt (reseq [.bound, .opt (relit "sum of "), relit "dollar", .opt (.ch 's'), .bound])
      (.alt (relitB "revenue") (relitB "net sales")) ]

/-- The stores patterns of ingest_single_period, most specific first. -/
def ingStoresPats : List RE :=
  [ relitB "sum of # of stores selling calc",
    relitB "# of stores",
    relitB "stores",
    relitB "doors" ]

/-- Python truthiness of an optional string: None and the empty string are
falsy. -/
def truthyOpt : Option String → Bool
  | none => false
  | some s => !s.isEmpty

/-- The value of a digit string. -/
def digitsToNat (ds : List Char) : Nat :=
  ds.foldl (fun a c => a * 10 + (c.toNat - 48)) 0

/-- pandas to_numeric with coercion, on the plain decimal forms the reports
contain: optional sign, digits, optional fractional part; anything else is
null.  (Exponent notation is not modelled; no claim evaluates it.) -/
def to_numeric (s : String) : Option Rat :=
  let t := (pyStrip s).toList
  let sign : Int := match t with | '-' :: _ => -1 | _ => 1
  let t2 := match t with
    | '-' :: rest => rest
    | '+' :: rest => rest
    | _ => t
  let intDigits := t2.takeWhile Char.isDigit
  match t2.dropWhile Char.isDigit with
  | [] =>
    if intDigits.isEmpty then none
    else some ((sign * (digitsToNat intDigits : Int) : Int) : Rat)
  | '.' :: fr =>
    let frDigits := fr.takeWhile Char.isDigit
    if !(fr.dropWhile Char.isDigit).isEmpty then none
    else if intDigits.isEmpty && frDigits.isEmpty then none
    else some (mkRat
      (sign * ((digitsToNat intDigits * 10 ^ frDigits.length + digitsToNat frDigits : Nat) : Int))
      (10 ^ frDigits.length))
  | _ => none

/-- One tidy output row of ingest_single_period. -/
structure TidyRow where
  chain : String
  units : Option Rat
  dollars : Option Rat
  stores : Option Rat
  brand : String
  report_date : Option String
  report_month : Option String
  period : String
deriving DecidableEq, Repr

/-- First index of a string in a list (the list is assumed to contain it;
label lookup in the frame is by name). -/
def idxOfStr : List String → String → Nat
  | [], _ => 0
  | c :: cs, s => if c == s then 0 else idxOfStr cs s + 1

/-- Indices of the header columns kept by ingest_single_period: stripped
name nonempty and not a placeholder starting with "unnamed". -/
def keptIdx (headers : List String) : List Nat :=
  (List.range headers.length).filter (fun j =>
    let cs := pyStrip (headers.getD j "")
    !cs.isEmpty && !(pyStarts (pyLower cs) "unnamed"))

/-- The headers built from the located header row alone, each stripped. -/
def sheetHeaders (grid : List (List String)) (h : Nat) : List String :=
  (grid.getD h []).map pyStrip

/-- The kept canonical column names of the sheet, in column order. -/
def sheetCols (grid : List (List String)) (h : Nat) : List String :=
  (keptIdx (sheetHeaders grid h)).map (fun j => (sheetHeaders grid h).getD j "")

/-- The grid column index a resolved role name selects, by label lookup
among the kept columns. -/
def roleIdx (grid : List (List String)) (h : Nat) (pats : List RE) : Nat :=
  (keptIdx (sheetHeaders grid h)).getD
    (idxOfStr (sheetCols grid h) ((_choose_col (sheetCols grid h) pats).getD "")) 0

/-- The tidy rows of a usable sheet: one per data row below the header with
nonempty stripped chain text, carrying the coerced numerics, the constant
brand, the file-name dates and the meta period tag. -/
def buildRows (file_name : String) (grid : List (List String)) (h : Nat) :
    List TidyRow :=
  (grid.drop (h + 1)).filterMap (fun r =>
    let chain := pyStrip (r.getD (roleIdx grid h ingChainPats) "")
    if chain.isEmpty then none
    else some { chain := chain,
                units := to_numeric (r.getD (roleIdx grid h ingUnitsPats) ""),
                dollars := to_numeric (r.getD (roleIdx grid h ingDollarsPats) ""),
                stores := to_numeric (r.getD (roleIdx grid h ingStoresPats) ""),
                brand := "NEOLEA",
                report_date := (_parse_dates_from_name file_name).1,
                report_month := (_parse_dates_from_name file_name).2,
                period := _guess_period_from_meta grid h })

/-- The per-sheet body of ingest_single_period: locate the header row, build
headers from that row alone, drop unnamed columns, resolve the four roles —
all four are required by the guard at line 249 before the table is built —
and emit the tidy rows.  Lines 255 to 300 of ingest.py are a corrupted
editor merge pasted inside the rename call; the row construction modelled in
buildRows follows the operative statements around it (selection at line 254,
coercion and filtering at lines 302 to 308, constant fields at lines 313 to
321).  Column labels are assumed distinct, as label selection on duplicate
names has no single-column meaning. -/
def processGrid (file_name : String) (grid : List (List String)) :
    Option (List TidyRow) :=
  match _find_header_row grid 200 with
  | none => none
  | some h =>
    if truthyOpt (_choose_col (sheetCols grid h) ingChainPats)
        && truthyOpt (_choose_col (sheetCols grid h) ingUnitsPats)
        && truthyOpt (_choose_col (sheetCols grid h) ingDollarsPats)
        && truthyOpt (_choose_col (sheetCols grid h) ingStoresPats) then
      some (buildRows file_name grid h)
    else none

/-- One sheet of a workbook: its tab name and its raw grid, with every cell
already in the string form pandas gives it. -/
structure Sheet where
  name : String
  grid : List (List String)
deriving DecidableEq, Repr

/-- The fixed preference list of sheet names of ingest_single_period. -/
def preferredSheets : List String :=
  ["Ret_Brand_Pivot", "Ret_Brand_All_B_Pivot", "Ret_BrandCategory_Pivot",
   "Ret_BrandCategory_All_B_Pivot", "Retailer"]

/-- The candidate sheet list: preferred names present in the workbook, in
preference order; else sheets hinting at retailer or brand pivots; else
every sheet. -/
def candidate_sheets (names : List String) : List String :=
  let pref := preferredSheets.filter (fun s => names.contains s)
  if !pref.isEmpty then pref
  else
    let hinted := names.filter (fun s =>
      (containsSub (pyLower s) "ret" || containsSub (pyLower s) "brand")
        && containsSub (pyLower s) "pivot")
    if !hinted.isEmpty then hinted else names

/-- Read one candidate by name and run the per-sheet body on its grid.
Candidates always name an existing sheet, so the none branch of the lookup
is unreachable for the lists candidate_sheets builds. -/
def sheetRows (file_name : String) (sheets : List Sheet) (c : String) :
    Option (List TidyRow) :=
  match sheets.find? (fun s => s.name == c) with
  | none => none
  | some s => processGrid file_name s.grid

/-- The candidate loop of ingest_single_period: skip sheets whose body
yields nothing, and stop at the first sheet that yields a table (the
unconditional break at line 326). -/
def ingestLoop (file_name : String) (sheets : List Sheet) :
    List String → List TidyRow
  | [] => []
  | c :: rest =>
    match sheetRows file_name sheets c with
    | none => ingestLoop file_name sheets rest
    | some rows => rows

/-- ingest.py ingest_single_period over a whole workbook. -/
def ingest_single_period (file_name : String) (sheets : List Sheet) :
    List TidyRow :=
  ingestLoop file_name sheets (candidate_sheets (sheets.map Sheet.name))

/-! ### Helper lemmas -/

theorem strAppend_left_cancel {a b c : String} (h : a ++ b = a ++ c) : b = c := by
  have hd := congrArg String.data h
  rw [String.data_append, String.data_append] at hd
  exact String.ext (List.append_cancel_left hd)

theorem strAppend_right_cancel {a b c : String} (h : a ++ c = b ++ c) : a = b := by
  have hd := congrArg String.data h
  rw [String.data_append, String.data_append] at hd
  exact String.ext (List.append_cancel_right hd)

theorem pyJoin_cons_ne (sep p : String) (L : List String) (hL : L ≠ []) :
    pyJoin sep (p :: L) = p ++ sep ++ pyJoin sep L := by
  cases L with
  | nil => exact absurd rfl hL
  | cons l ls => rfl

/-- Joining a list that differs only in one element: the join splits into a
fixed head, the element, and a fixed tail. -/
theorem pyJoin_decomp (sep : String) (S : List String) :
    ∀ P : List String, ∃ H T : String, ∀ y : String,
      pyJoin sep (P ++ y :: S) = H ++ (y ++ T) := by
  intro P
  induction P with
  | nil =>
    cases S with
    | nil =>
      refine ⟨"", "", fun y => ?_⟩
      apply String.ext
      simp [pyJoin, String.data_append]
    | cons s S' =>
      refine ⟨"", sep ++ pyJoin sep (s :: S'), fun y => ?_⟩
      have hstep : pyJoin sep (y :: s :: S') = y ++ sep ++ pyJoin sep (s :: S') := rfl
      rw [List.nil_append, hstep]
      apply String.ext
      simp [String.data_append]
  | cons p P' ih =>
    obtain ⟨H, T, hHT⟩ := ih
    refine ⟨p ++ sep ++ H, T, fun y => ?_⟩
    have hne : P' ++ y :: S ≠ [] := by simp
    rw [List.cons_append, pyJoin_cons_ne sep p _ hne, hHT y]
    apply String.ext
    simp [String.data_append]

/-- Joins of equal-shape lists that differ in exactly one element differ. -/
theorem pyJoin_single_diff (sep : String) (P S : List String) (x y : String)
    (hxy : x ≠ y) : pyJoin sep (P ++ x :: S) ≠ pyJoin sep (P ++ y :: S) := by
  obtain ⟨H, T, hHT⟩ := pyJoin_decomp sep S P
  rw [hHT x, hHT y]
  intro heq
  exact hxy (strAppend_right_cancel (strAppend_left_cancel heq))

theorem take30_append_cons (pre suf : List String) (a : String)
    (h : pre.length < 30) :
    (pre ++ a :: suf).take 30 = pre ++ a :: suf.take (29 - pre.length) := by
  rw [List.take_append_eq_append_take, List.take_of_length_le (Nat.le_of_lt h)]
  congr 1
  have h30 : 30 - pre.length = (29 - pre.length) + 1 := by omega
  rw [h30, List.take_succ_cons]

/-- The profile key depends on the headers only through the normalized
thirty-header prefix. -/
theorem profile_key_congr (file sheet : String) (h1 h2 : List String)
    (h : (h1.take 30).map _norm = (h2.take 30).map _norm) :
    profile_key file sheet h1 = profile_key file sheet h2 := by
  unfold profile_key profile_raw profile_sig
  rw [h]

/-- Profile raw strings with different signatures differ. -/
theorem profile_raw_ne_of_sig_ne (file sheet : String) (h1 h2 : List String)
    (h : profile_sig h1 ≠ profile_sig h2) :
    profile_raw file sheet h1 ≠ profile_raw file sheet h2 := by
  intro heq
  exact h (strAppend_left_cancel heq)

theorem _match_one_mem (colnames : List String) :
    ∀ (pats : List RE) (c : String), _match_one colnames pats = some c →
      c ∈ colnames := by
  intro pats
  induction pats with
  | nil => intro c h; simp [_match_one] at h
  | cons p ps ih =>
    intro c h
    unfold _match_one at h
    cases hf : colnames.find? (fun x => rxSearch p x) with
    | none => rw [hf] at h; exact ih c h
    | some x =>
      rw [hf] at h
      injection h with h
      subst h
      exact List.mem_of_find?_eq_some hf

theorem scanAnchor_some (grid : List (List String)) :
    ∀ (n i r : Nat), scanAnchor grid i n = some r →
      i ≤ r ∧ r < i + n ∧ rowHasAnchor (grid.getD r []) = true
        ∧ ∀ j, i ≤ j → j < r → rowHasAnchor (grid.getD j []) = false := by
  intro n
  induction n with
  | zero => intro i r h; simp [scanAnchor] at h
  | succ n ih =>
    intro i r h
    cases hc : rowHasAnchor (grid.getD i []) with
    | true =>
      rw [scanAnchor, if_pos hc] at h
      injection h with h
      subst h
      exact ⟨Nat.le_refl _, by omega, hc, fun j hj1 hj2 => by omega⟩
    | false =>
      rw [scanAnchor, if_neg (by rw [hc]; simp)] at h
      obtain ⟨h1, h2, h3, h4⟩ := ih (i + 1) r h
      refine ⟨by omega, by omega, h3, fun j hj1 hj2 => ?_⟩
      rcases Nat.eq_or_lt_of_le hj1 with rfl | hlt
      · exact hc
      · exact h4 j hlt hj2

theorem scanAnchor_none_of (grid : List (List String)) :
    ∀ (n i : Nat),
      (∀ j, i ≤ j → j < i + n → rowHasAnchor (grid.getD j []) = false) →
      scanAnchor grid i n = none := by
  intro n
  induction n with
  | zero => intro i _; rfl
  | succ n ih =>
    intro i hall
    have hc : rowHasAnchor (grid.getD i []) = false :=
      hall i (Nat.le_refl _) (by omega)
    rw [scanAnchor, if_neg (by rw [hc]; simp)]
    exact ih (i + 1) (fun j hj1 hj2 => hall j (by omega) (by omega))

theorem scanAnchor_none_imp (grid : List (List String)) :
    ∀ (n i : Nat), scanAnchor grid i n = none →
      ∀ j, i ≤ j → j < i + n → rowHasAnchor (grid.getD j []) = false := by
  intro n
  induction n with
  | zero => intro i _ j hj1 hj2; omega
  | succ n ih =>
    intro i h j hj1 hj2
    cases hc : rowHasAnchor (grid.getD i []) with
    | true => rw [scanAnchor, if_pos hc] at h; exact absurd h (by simp)
    | false =>
      rw [scanAnchor, if_neg (by rw [hc]; simp)] at h
      rcases Nat.eq_or_lt_of_le hj1 with rfl | hlt
      · exact hc
      · exact ih (i + 1) h j hlt (by omega)

theorem ingestLoop_skip (file_name : String) (sheets : List Sheet) :
    ∀ (pre rest : List String),
      (∀ c ∈ pre, sheetRows file_name sheets c = none) →
      ingestLoop file_name sheets (pre ++ rest) = ingestLoop file_name sheets rest := by
  intro pre
  induction pre with
  | nil => intro rest _; rfl
  | cons p pre' ih =>
    intro rest hall
    have hp : sheetRows file_name sheets p = none := hall p (by simp)
    rw [List.cons_append, ingestLoop, hp]
    exact ih rest (fun c hc => hall c (by simp [hc]))

/-! ### Lemmas about the date pattern -/

theorem charsPre_append (l r : List Char) : charsPre l (l ++ r) = true := by
  induction l with
  | nil => rfl
  | cons a as ih => simp [charsPre, ih]

theorem charsPre_decomp : ∀ (l cs : List Char), charsPre l cs = true →
    cs = l ++ cs.drop l.length := by
  intro l
  induction l with
  | nil => intro cs _; simp
  | cons a as ih =>
    intro cs h
    cases cs with
    | nil => simp [charsPre] at h
    | cons b bs =>
      simp only [charsPre, Bool.and_eq_true, beq_iff_eq] at h
      obtain ⟨hab, hpre⟩ := h
      subst hab
      rw [List.length_cons, List.drop_succ_cons, List.cons_append]
      exact congrArg _ (ih bs hpre)

theorem takeWhile_all (p : Char → Bool) (l : List Char) :
    (l.takeWhile p).all p = true := by
  induction l with
  | nil => rfl
  | cons a as ih =>
    cases hp : p a with
    | true => simp [List.takeWhile_cons, hp, ih]
    | false => simp [List.takeWhile_cons, hp]

theorem isDigit_not_ws (c : Char) (h : c.isDigit = true) :
    c.isWhitespace = false := by
  cases hw : c.isWhitespace with
  | false => rfl
  | true =>
    exfalso
    simp only [Char.isWhitespace, Bool.or_eq_true, decide_eq_true_eq] at hw
    rcases hw with ((h1 | h1) | h1) | h1 <;> subst h1 <;> exact absurd h (by decide)

theorem dropWhile_ws_append (ws : List Char) (c : Char) (rest : List Char)
    (hws : ws.all Char.isWhitespace = true) (hc : c.isWhitespace = false) :
    (ws ++ c :: rest).dropWhile Char.isWhitespace = c :: rest := by
  induction ws with
  | nil => simp [List.dropWhile_cons, hc]
  | cons a as ih =>
    simp only [List.all_cons, Bool.and_eq_true] at hws
    obtain ⟨ha, has⟩ := hws
    simp [List.dropWhile_cons, ha, ih has]

theorem parseDigits_sound (cs : List Char) (mm dd yy : String)
    (h : parseDigits cs = some (mm, dd, yy)) :
    ∃ m1 m2 d1 d2 y1 y2 post,
      cs = m1 :: m2 :: '-' :: d1 :: d2 :: '-' :: y1 :: y2 :: post
      ∧ mm = String.mk [m1, m2] ∧ dd = String.mk [d1, d2]
      ∧ yy = String.mk [y1, y2]
      ∧ (m1.isDigit && m2.isDigit && d1.isDigit && d2.isDigit
          && y1.isDigit && y2.isDigit) = true := by
  unfold parseDigits at h
  split at h
  case h_1 m1 m2 c3 d1 d2 c6 y1 y2 post =>
    split at h
    case isTrue hcond =>
      simp only [Bool.and_eq_true, beq_iff_eq] at hcond
      obtain ⟨⟨⟨⟨⟨⟨⟨hc3, hc6⟩, hm1⟩, hm2⟩, hd1⟩, hd2⟩, hy1⟩, hy2⟩ := hcond
      subst hc3
      subst hc6
      injection h with h
      injection h with h1 h
      injection h with h2 h3
      exact ⟨m1, m2, d1, d2, y1, y2, post, rfl, h1.symm, h2.symm, h3.symm,
        by simp [hm1, hm2, hd1, hd2, hy1, hy2]⟩
    case isFalse => exact absurd h (by simp)
  case h_2 => exact absurd h (by simp)

theorem parseAfterEnding_sound (cs : List Char) (mm dd yy : String)
    (h : parseAfterEnding cs = some (mm, dd, yy)) :
    ∃ w rest, cs = w :: rest ∧ w.isWhitespace = true
      ∧ parseDigits (rest.dropWhile Char.isWhitespace) = some (mm, dd, yy) := by
  cases cs with
  | nil => simp [parseAfterEnding] at h
  | cons w rest =>
    simp only [parseAfterEnding] at h
    by_cases hw : w.isWhitespace = true
    · rw [if_pos hw] at h
      exact ⟨w, rest, rfl, hw, h⟩
    · rw [if_neg hw] at h
      exact absurd h (by simp)

theorem matchEndingAt_sound (cs : List Char) (mm dd yy : String)
    (h : matchEndingAt cs = some (mm, dd, yy)) :
    ∃ w ws m1 m2 d1 d2 y1 y2 post,
      cs = "ending".toList
            ++ w :: (ws ++ m1 :: m2 :: '-' :: d1 :: d2 :: '-' :: y1 :: y2 :: post)
      ∧ w.isWhitespace = true ∧ ws.all Char.isWhitespace = true
      ∧ (m1.isDigit && m2.isDigit && d1.isDigit && d2.isDigit
          && y1.isDigit && y2.isDigit) = true
      ∧ mm = String.mk [m1, m2] ∧ dd = String.mk [d1, d2]
      ∧ yy = String.mk [y1, y2] := by
  unfold matchEndingAt at h
  split at h
  case isTrue hpre =>
    have hcs := charsPre_decomp _ _ hpre
    obtain ⟨w, rest, hr, hw, hpd⟩ := parseAfterEnding_sound _ _ _ _ h
    obtain ⟨m1, m2, d1, d2, y1, y2, post, hshape, hmm, hdd, hyy, hdig⟩ :=
      parseDigits_sound _ _ _ _ hpd
    refine ⟨w, rest.takeWhile Char.isWhitespace, m1, m2, d1, d2, y1, y2, post,
      ?_, hw, takeWhile_all _ _, hdig, hmm, hdd, hyy⟩
    have hlen : ("ending".toList).length = 6 := rfl
    rw [hcs]
    rw [hlen] at hcs ⊢
    congr 1
    rw [hr]
    congr 1
    conv_lhs => rw [← List.takeWhile_append_dropWhile Char.isWhitespace rest]
    rw [hshape]
  case isFalse => exact absurd h (by simp)

theorem scanEnding_sound : ∀ (cs : List Char) (mm dd yy : String),
    scanEnding cs = some (mm, dd, yy) →
    ∃ pre rest, cs = pre ++ rest ∧ matchEndingAt rest = some (mm, dd, yy) := by
  intro cs
  induction cs with
  | nil => intro mm dd yy h; simp [scanEnding] at h
  | cons c cs' ih =>
    intro mm dd yy h
    unfold scanEnding at h
    cases hm : matchEndingAt (c :: cs') with
    | some r =>
      rw [hm] at h
      injection h with h
      subst h
      exact ⟨[], c :: cs', rfl, hm⟩
    | none =>
      rw [hm] at h
      obtain ⟨pre, rest, heq, hmt⟩ := ih mm dd yy h
      exact ⟨c :: pre, rest, by rw [heq]; rfl, hmt⟩

theorem matchEndingAt_complete (w : Char) (ws post : List Char)
    (m1 m2 d1 d2 y1 y2 : Char)
    (hw : w.isWhitespace = true) (hws : ws.all Char.isWhitespace = true)
    (hdig : (m1.isDigit && m2.isDigit && d1.isDigit && d2.isDigit
      && y1.isDigit && y2.isDigit) = true) :
    (matchEndingAt ("ending".toList
      ++ w :: (ws ++ m1 :: m2 :: '-' :: d1 :: d2 :: '-' :: y1 :: y2 :: post))).isSome
      = true := by
  simp only [Bool.and_eq_true] at hdig
  obtain ⟨⟨⟨⟨⟨hm1, hm2⟩, hd1⟩, hd2⟩, hy1⟩, hy2⟩ := hdig
  unfold matchEndingAt
  rw [charsPre_append, if_pos rfl]
  have hdrop : ("ending".toList
      ++ w :: (ws ++ m1 :: m2 :: '-' :: d1 :: d2 :: '-' :: y1 :: y2 :: post)).drop 6
      = w :: (ws ++ m1 :: m2 :: '-' :: d1 :: d2 :: '-' :: y1 :: y2 :: post) := by
    have hlen : ("ending".toList).length = 6 := rfl
    rw [← hlen, List.drop_left]
  rw [hdrop]
  simp only [parseAfterEnding]
  rw [if_pos hw]
  rw [dropWhile_ws_append ws m1 _ hws (isDigit_not_ws m1 hm1)]
  simp only [parseDigits]
  rw [if_pos (by simp [hm1, hm2, hd1, hd2, hy1, hy2])]
  rfl

theorem scanEnding_complete : ∀ (pre rest : List Char),
    (matchEndingAt rest).isSome = true →
    (scanEnding (pre ++ rest)).isSome = true := by
  intro pre
  induction pre with
  | nil =>
    intro rest h
    cases rest with
    | nil =>
      rw [show matchEndingAt [] = none from rfl] at h
      simp at h
    | cons c cs =>
      rw [List.nil_append]
      unfold scanEnding
      cases hm : matchEndingAt (c :: cs) with
      | some r => simp
      | none => rw [hm] at h; simp at h
  | cons p pre' ih =>
    intro rest h
    rw [List.cons_append]
    unfold scanEnding
    cases hm : matchEndingAt (p :: (pre' ++ rest)) with
    | some r => simp
    | none => simpa using ih rest h

/-- The date pattern of the specification, as a structural decomposition of
the lowercased file name: the literal "ending", one or more whitespace
characters, and three dash-separated two-digit groups. -/
def IsEndingMatch (cs : List Char) (mm dd yy : String) : Prop :=
  ∃ pre w ws post m1 m2 d1 d2 y1 y2,
    mm = String.mk [m1, m2] ∧ dd = String.mk [d1, d2] ∧ yy = String.mk [y1, y2]
    ∧ w.isWhitespace = true ∧ ws.all Char.isWhitespace = true
    ∧ (m1.isDigit && m2.isDigit && d1.isDigit && d2.isDigit
        && y1.isDigit && y2.isDigit) = true
    ∧ cs = pre ++ ("ending".toList
        ++ w :: (ws ++ m1 :: m2 :: '-' :: d1 :: d2 :: '-' :: y1 :: y2 :: post))

/-- A successful scan yields a structural match of the date pattern. -/
theorem scanEnding_isEndingMatch (cs : List Char) (mm dd yy : String)
    (h : scanEnding cs = some (mm, dd, yy)) : IsEndingMatch cs mm dd yy := by
  obtain ⟨pre, rest, heq, hmt⟩ := scanEnding_sound cs mm dd yy h
  obtain ⟨w, ws, m1, m2, d1, d2, y1, y2, post, hshape, hw, hws, hdig, hmm, hdd, hyy⟩ :=
    matchEndingAt_sound rest mm dd yy hmt
  exact ⟨pre, w, ws, post, m1, m2, d1, d2, y1, y2, hmm, hdd, hyy, hw, hws, hdig,
    by rw [heq, hshape]⟩

/-- A structural match of the date pattern makes the scan succeed. -/
theorem isEndingMatch_scanEnding (cs : List Char) (mm dd yy : String)
    (h : IsEndingMatch cs mm dd yy) : (scanEnding cs).isSome = true := by
  obtain ⟨pre, w, ws, post, m1, m2, d1, d2, y1, y2, _, _, _, hw, hws, hdig, heq⟩ := h
  rw [heq]
  exact scanEnding_complete pre _
    (matchEndingAt_complete w ws post m1 m2 d1 d2 y1 y2 hw hws hdig)

/-! ### Claim theorems -/

/-- C1 counterexample: for the classifier the ingest pipeline invokes,
_guess_period_from_meta, a metadata window containing both YTD and 4 Wks
classifies as 4W rather than YTD (the week check runs before the YTD check
and results carry a W suffix), and a 52 Wks window yields 52W, not 52. -/
theorem c1_period_priority_counterexample :
    _guess_period_from_meta [["YTD", "4 Wks"], ["Row Labels"]] 1 = "4W"
    ∧ ("4W" : String) ≠ "YTD"
    ∧ _guess_period_from_meta [["52 Wks"], ["Row Labels"]] 1 = "52W" :=
  ⟨by decide, by decide, by decide⟩

/-- C1 amended: the helper _guess_period_from_block is priority-ordered as
the claim states — a YTD substring wins over any week token; otherwise the
week counts 4, 12, 24, 52 are tried in that order and name the result;
otherwise unknown — but the classifier ingest_single_period actually
invokes, _guess_period_from_meta, checks the 4-week token, then the 52-week
token, then YTD, returning 4W, 52W, YTD or unknown: a window with both YTD
and 4 Wks classifies as 4W, and 52 Wks yields 52W rather than 52. -/
theorem c1_period_classifiers :
    (∀ grid s e, containsSub (blockText grid s e) "YTD" = true →
        _guess_period_from_block grid s e = "YTD")
    ∧ (∀ grid s e, containsSub (blockText grid s e) "YTD" = false →
        rxSearch (reWks "4") (blockText grid s e) = true →
        _guess_period_from_block grid s e = "4")
    ∧ (∀ grid s e, containsSub (blockText grid s e) "YTD" = false →
        rxSearch (reWks "4") (blockText grid s e) = false →
        rxSearch (reWks "12") (blockText grid s e) = true →
        _guess_period_from_block grid s e = "12")
    ∧ (∀ grid s e, containsSub (blockText grid s e) "YTD" = false →
        rxSearch (reWks "4") (blockText grid s e) = false →
        rxSearch (reWks "12") (blockText grid s e) = false →
        rxSearch (reWks "24") (blockText grid s e) = true →
        _guess_period_from_block grid s e = "24")
    ∧ (∀ grid s e, containsSub (blockText grid s e) "YTD" = false →
        rxSearch (reWks "4") (blockText grid s e) = false →
        rxSearch (reWks "12") (blockText grid s e) = false →
        rxSearch (reWks "24") (blockText grid s e) = false →
        rxSearch (reWks "52") (blockText grid s e) = true →
        _guess_period_from_block grid s e = "52")
    ∧ (∀ grid s e, containsSub (blockText grid s e) "YTD" = false →
        rxSearch (reWks "4") (blockText grid s e) = false →
        rxSearch (reWks "12") (blockText grid s e) = false →
        rxSearch (reWks "24") (blockText grid s e) = false →
        rxSearch (reWks "52") (blockText grid s e) = false →
        _guess_period_from_block grid s e = "unknown")
    ∧ (∀ grid h, rxSearch (reMetaWeek "4") (metaText grid h) = true →
        _guess_period_from_meta grid h = "4W")
    ∧ (∀ grid h, rxSearch (reMetaWeek "4") (metaText grid h) = false →
        rxSearch (reMetaWeek "52") (metaText grid h) = true →
        _guess_period_from_meta grid h = "52W")
    ∧ (∀ grid h, rxSearch (reMetaWeek "4") (metaText grid h) = false →
        rxSearch (reMetaWeek "52") (metaText grid h) = false →
        rxSearch reMetaYtd (metaText grid h) = true →
        _guess_period_from_meta grid h = "YTD")
    ∧ (∀ grid h, rxSearch (reMetaWeek "4") (metaText grid h) = false →
        rxSearch (reMetaWeek "52") (metaText grid h) = false →
        rxSearch reMetaYtd (metaText grid h) = false →
        _guess_period_from_meta grid h = "unknown") := by
  refine ⟨?_, ?_, ?_, ?_, ?_, ?_, ?_, ?_, ?_, ?_⟩ <;> intros <;>
    simp_all [_guess_period_from_block, _guess_period_from_meta]

/-- Witness for c1_period_classifiers at a concrete window. -/
theorem c1_period_classifiers_witness :
    _guess_period_from_block [["YTD", "4 WKS"], ["Row Labels"]] 1 1 = "YTD" :=
  c1_period_classifiers.1 [["YTD", "4 WKS"], ["Row Labels"]] 1 1 (by decide)

/-- C2 counterexample: a sheet whose headers resolve chain, units and
dollars but not stores is skipped by the pipeline (the guard at line 249
of ingest.py also requires stores), refuting the claim that such a sheet is
still usable with a null-valued stores column. -/
theorem c2_stores_required_counterexample :
    truthyOpt (_choose_col (sheetCols [["Row Labels", "Units", "Dollars"]] 0)
        ingChainPats) = true
    ∧ truthyOpt (_choose_col (sheetCols [["Row Labels", "Units", "Dollars"]] 0)
        ingUnitsPats) = true
    ∧ truthyOpt (_choose_col (sheetCols [["Row Labels", "Units", "Dollars"]] 0)
        ingDollarsPats) = true
    ∧ _choose_col (sheetCols [["Row Labels", "Units", "Dollars"]] 0)
        ingStoresPats = none
    ∧ processGrid "file.xlsx" [["Row Labels", "Units", "Dollars"]] = none :=
  ⟨by decide, by decide, by decide, by decide, by decide⟩

/-- C2 amended: once a header row is located, the pipeline skips the sheet
exactly when at least one of chain, units, dollars or stores fails to
resolve to a truthy header name: stores is required like the other three,
and no null-valued stores column is ever substituted. -/
theorem c2_required_columns (file_name : String) (grid : List (List String))
    (h : Nat) (hh : _find_header_row grid 200 = some h) :
    processGrid file_name grid = none ↔
      ¬(truthyOpt (_choose_col (sheetCols grid h) ingChainPats) = true
        ∧ truthyOpt (_choose_col (sheetCols grid h) ingUnitsPats) = true
        ∧ truthyOpt (_choose_col (sheetCols grid h) ingDollarsPats) = true
        ∧ truthyOpt (_choose_col (sheetCols grid h) ingStoresPats) = true) := by
  unfold processGrid
  simp only [hh]
  by_cases hc : (truthyOpt (_choose_col (sheetCols grid h) ingChainPats)
      && truthyOpt (_choose_col (sheetCols grid h) ingUnitsPats)
      && truthyOpt (_choose_col (sheetCols grid h) ingDollarsPats)
      && truthyOpt (_choose_col (sheetCols grid h) ingStoresPats)) = true
  · rw [if_pos hc]
    simp only [Bool.and_eq_true] at hc
    obtain ⟨⟨⟨h1, h2⟩, h3⟩, h4⟩ := hc
    simp [h1, h2, h3, h4]
  · rw [if_neg hc]
    simp only [Bool.and_eq_true] at hc
    constructor
    · intro _ hconj
      exact hc ⟨⟨⟨hconj.1, hconj.2.1⟩, hconj.2.2.1⟩, hconj.2.2.2⟩
    · intro _
      rfl

/-- Witness for c2_required_columns at a concrete sheet. -/
theorem c2_required_columns_witness :
    processGrid "file.xlsx" [["Row Labels", "Units", "Dollars"]] = none :=
  (c2_required_columns "file.xlsx" [["Row Labels", "Units", "Dollars"]] 0
    (by decide)).mpr (by decide)

/-- C5: ingest_single_period emits the rows of exactly the first candidate
sheet whose per-sheet body succeeds, after skipping every earlier unusable
candidate; in particular a workbook of two preferred sheets carrying the
same grid yields that grid's table once, with a single sheet's row count. -/
theorem c5_first_usable_sheet :
    (∀ file_name sheets pre c post rows,
      candidate_sheets (sheets.map Sheet.name) = pre ++ c :: post →
      (∀ c' ∈ pre, sheetRows file_name sheets c' = none) →
      sheetRows file_name sheets c = some rows →
      ingest_single_period file_name sheets = rows)
    ∧ (∀ file_name grid rows, processGrid file_name grid = some rows →
      ingest_single_period file_name
          [⟨"Ret_Brand_Pivot", grid⟩, ⟨"Ret_Brand_All_B_Pivot", grid⟩] = rows
      ∧ (ingest_single_period file_name
          [⟨"Ret_Brand_Pivot", grid⟩, ⟨"Ret_Brand_All_B_Pivot", grid⟩]).length
        = rows.length) := by
  constructor
  · intro file_name sheets pre c post rows hcand hpre hc
    unfold ingest_single_period
    rw [hcand, ingestLoop_skip file_name sheets pre (c :: post) hpre]
    unfold ingestLoop
    rw [hc]
  · intro file_name grid rows hg
    have hcand : candidate_sheets
        (([⟨"Ret_Brand_Pivot", grid⟩, ⟨"Ret_Brand_All_B_Pivot", grid⟩] :
          List Sheet).map Sheet.name)
        = ["Ret_Brand_Pivot", "Ret_Brand_All_B_Pivot"] := rfl
    have hrows : sheetRows file_name
        [⟨"Ret_Brand_Pivot", grid⟩, ⟨"Ret_Brand_All_B_Pivot", grid⟩]
        "Ret_Brand_Pivot" = processGrid file_name grid := rfl
    have key : ingest_single_period file_name
        [⟨"Ret_Brand_Pivot", grid⟩, ⟨"Ret_Brand_All_B_Pivot", grid⟩] = rows := by
      unfold ingest_single_period
      rw [hcand]
      unfold ingestLoop
      rw [hrows, hg]
    exact ⟨key, by rw [key]⟩

/-- Witness for c5_first_usable_sheet on a concrete two-sheet workbook with
duplicated grids: the output is one copy of the single-sheet table. -/
theorem c5_first_usable_sheet_witness :
    ingest_single_period "Neolea Ending 03-15-24.xlsx"
      [⟨"Ret_Brand_Pivot",
        [["Report: YTD"],
         ["Row Labels", "Units", "Dollars", "Stores"],
         ["Walmart", "10", "20", "5"]]⟩,
       ⟨"Ret_Brand_All_B_Pivot",
        [["Report: YTD"],
         ["Row Labels", "Units", "Dollars", "Stores"],
         ["Walmart", "10", "20", "5"]]⟩]
    = [{ chain := "Walmart", units := some 10, dollars := some 20,
         stores := some 5, brand := "NEOLEA",
         report_date := some "2024-03-15", report_month := some "2024-03-01",
         period := "YTD" }] :=
  (c5_first_usable_sheet.2 "Neolea Ending 03-15-24.xlsx"
    [["Report: YTD"],
     ["Row Labels", "Units", "Dollars", "Stores"],
     ["Walmart", "10", "20", "5"]]
    [{ chain := "Walmart", units := some 10, dollars := some 20,
       stores := some 5, brand := "NEOLEA",
       report_date := some "2024-03-15", report_month := some "2024-03-01",
       period := "YTD" }] (by decide)).1

/-- C6: the date parser returns dates exactly when the lowercased file name
contains the literal ending followed by whitespace and three dash-separated
two-digit groups; any returned pair has the shape 20YY-MM-DD and 20YY-MM-01
built from matched groups, and the example file name parses as stated. -/
theorem c6_date_pattern (name : String) :
    ((_parse_dates_from_name name ≠ (none, none)) ↔
      ∃ mm dd yy, IsEndingMatch (pyLower name).toList mm dd yy)
    ∧ (∀ d m, _parse_dates_from_name name = (some d, some m) →
      ∃ mm dd yy, IsEndingMatch (pyLower name).toList mm dd yy
        ∧ d = "20" ++ yy ++ "-" ++ mm ++ "-" ++ dd
        ∧ m = "20" ++ yy ++ "-" ++ mm ++ "-01")
    ∧ _parse_dates_from_name "Brand Ending 03-15-24 Report.xlsb"
        = (some "2024-03-15", some "2024-03-01") := by
  refine ⟨⟨?_, ?_⟩, ?_, by decide⟩
  · intro hne
    unfold _parse_dates_from_name at hne
    cases hs : scanEnding (pyLower name).toList with
    | none => rw [hs] at hne; simp at hne
    | some r =>
      obtain ⟨mm, dd, yy⟩ := r
      exact ⟨mm, dd, yy, scanEnding_isEndingMatch _ _ _ _ hs⟩
  · rintro ⟨mm, dd, yy, hm⟩
    have hsome := isEndingMatch_scanEnding _ _ _ _ hm
    intro heq
    unfold _parse_dates_from_name at heq
    cases hs : scanEnding (pyLower name).toList with
    | none => rw [hs] at hsome; simp at hsome
    | some r =>
      obtain ⟨mm', dd', yy'⟩ := r
      rw [hs] at heq
      simp at heq
  · intro d m h
    unfold _parse_dates_from_name at h
    cases hs : scanEnding (pyLower name).toList with
    | none => rw [hs] at h; simp at h
    | some r =>
      obtain ⟨mm, dd, yy⟩ := r
      rw [hs] at h
      simp only [Prod.mk.injEq, Option.some.injEq] at h
      exact ⟨mm, dd, yy, scanEnding_isEndingMatch _ _ _ _ hs,
        h.1.symm, h.2.symm⟩

/-- Witness for c6_date_pattern at the example file name. -/
theorem c6_date_pattern_witness :
    ∃ mm dd yy,
      IsEndingMatch (pyLower "Brand Ending 03-15-24 Report.xlsb").toList mm dd yy :=
  (c6_date_pattern "Brand Ending 03-15-24 Report.xlsb").1.mp (by decide)

/-- C3 counterexample: changing the single first header of the list does not
change the profile key when only its case changes, because profile_key
normalizes headers before hashing; this refutes the claim that changing any
single header among the first thirty yields a different key. -/
theorem c3_profile_key_counterexample :
    profile_key "report.xlsx" "Sheet1" ["Units"]
      = profile_key "report.xlsx" "Sheet1" ["units"]
    ∧ (["Units"] : List String) ≠ ["units"] :=
  ⟨congrArg _sha1_name (by decide), by decide⟩

/-- C3 amended: profile_key is a pure function of its three inputs, and a
single header change among the first thirty alters the key only through the
header's normalized form: a normalization-preserving change keeps the key
unchanged, while a normalization-visible change changes the fingerprint
string that is hashed. -/
theorem c3_profile_key_single_change (file sheet : String) (pre suf : List String)
    (a b : String) (hlen : pre.length < 30) :
    (_norm a = _norm b →
      profile_key file sheet (pre ++ a :: suf)
        = profile_key file sheet (pre ++ b :: suf))
    ∧ (_norm a ≠ _norm b →
      profile_raw file sheet (pre ++ a :: suf)
        ≠ profile_raw file sheet (pre ++ b :: suf)) := by
  constructor
  · intro hab
    apply profile_key_congr
    rw [take30_append_cons pre suf a hlen, take30_append_cons pre suf b hlen]
    simp [hab]
  · intro hab
    apply profile_raw_ne_of_sig_ne
    unfold profile_sig
    rw [take30_append_cons pre suf a hlen, take30_append_cons pre suf b hlen,
      List.map_append, List.map_append, List.map_cons, List.map_cons]
    exact pyJoin_single_diff "|" _ _ _ _ hab

/-- Witness for c3_profile_key_single_change at concrete inputs. -/
theorem c3_profile_key_single_change_witness :
    profile_key "report.xlsx" "Sheet1" ["Units"]
      = profile_key "report.xlsx" "Sheet1" ["units"]
    ∧ profile_raw "report.xlsx" "Sheet1" ["AA"]
      ≠ profile_raw "report.xlsx" "Sheet1" ["BB"] :=
  ⟨(c3_profile_key_single_change "report.xlsx" "Sheet1" [] [] "Units" "units"
      (by decide)).1 (by decide),
   (c3_profile_key_single_change "report.xlsx" "Sheet1" [] [] "AA" "BB"
      (by decide)).2 (by decide)⟩

/-- C4 counterexample: on the header list with the single entry Units, the
suggestion matcher fills the units role with the normalized name, which does
not occur in the input header list. -/
theorem c4_mapping_membership_counterexample :
    (suggest_mapping ["Units"]).get SemanticRole.units = some "units"
    ∧ ("units" : String) ∉ (["Units"] : List String) :=
  ⟨rfl, by decide⟩

/-- C4 amended: every non-null entry of the mapping suggest_mapping builds
occurs in the list of normalized input headers (the input headers after
lowercasing, trimming and whitespace collapsing), though not necessarily in
the input header list itself. -/
theorem c4_mapping_membership_normalized (headers : List String)
    (role : SemanticRole) (s : String)
    (h : (suggest_mapping headers).get role = some s) :
    s ∈ headers.map _norm := by
  cases role <;>
    (simp only [suggest_mapping, ColumnMapping.get] at h
     exact _match_one_mem _ _ _ h)

/-- Witness for c4_mapping_membership_normalized at a concrete input. -/
theorem c4_mapping_membership_normalized_witness :
    ("units" : String) ∈ (["Units"] : List String).map _norm :=
  c4_mapping_membership_normalized ["Units"] SemanticRole.units "units" rfl

/-- C7: the grid scanner returns the first row within the scan bound whose
stripped lowercased cell text contains the anchor phrase, returns nothing
exactly when no row within the bound contains it, and on success the header
block spans from three rows above the anchor (clamped at zero) to the
anchor, with data starting right below. -/
theorem c7_grid_scanner (grid : List (List String)) (bound : Nat) :
    (∀ i, _find_header_row grid bound = some i →
      i < min bound grid.length
      ∧ rowHasAnchor (grid.getD i []) = true
      ∧ ∀ j, j < i → rowHasAnchor (grid.getD j []) = false)
    ∧ (_find_header_row grid bound = none ↔
      ∀ j, j < min bound grid.length → rowHasAnchor (grid.getD j []) = false)
    ∧ (∀ i, _find_header_row grid bound = some i →
      _find_header_block grid bound = some (i - 3, i, i + 1)) := by
  simp only [_find_header_row, _find_header_block]
  refine ⟨fun i hi => ?_, ⟨fun hn j hj => ?_, fun hall => ?_⟩, fun i hi => ?_⟩
  · obtain ⟨h1, h2, h3, h4⟩ := scanAnchor_some grid _ _ _ hi
    exact ⟨by omega, h3, fun j hj => h4 j (Nat.zero_le _) hj⟩
  · exact scanAnchor_none_imp grid _ _ hn j (Nat.zero_le _) (by omega)
  · exact scanAnchor_none_of grid _ _ (fun j _ hj2 => hall j (by omega))
  · rw [hi]

/-- Witness for c7_grid_scanner at a concrete grid. -/
theorem c7_grid_scanner_witness :
    _find_header_block [["Brand"], ["Row Labels", "Units"]] 200 = some (0, 1, 2) :=
  (c7_grid_scanner [["Brand"], ["Row Labels", "Units"]] 200).2.2 1 rfl

/-- C8: loading the profile store is total; a missing or unparseable
document loads as the empty map, a parsed document loads in full, and
looking up any key of a missing or corrupt store yields null. -/
theorem c8_load_profiles (doc : ProfileDoc) (key : String) :
    load_profiles ProfileDoc.missing = []
    ∧ load_profiles ProfileDoc.unparseable = []
    ∧ (∀ m, load_profiles (ProfileDoc.parsed m) = m)
    ∧ ((doc = ProfileDoc.missing ∨ doc = ProfileDoc.unparseable) →
        get_saved_mapping doc key = none) := by
  refine ⟨rfl, rfl, fun m => rfl, ?_⟩
  rintro (rfl | rfl) <;> rfl

/-- Witness for c8_load_profiles at a concrete store state and key. -/
theorem c8_load_profiles_witness :
    get_saved_mapping ProfileDoc.missing "anykey" = none :=
  (c8_load_profiles ProfileDoc.missing "anykey").2.2.2 (Or.inl rfl)

/-- C9: with the same file and sheet names, two header lists whose first
thirty entries agree pairwise after normalization (lowercasing, trimming,
collapsing whitespace runs) receive the same profile key; in particular
case or spacing changes and changes past index twenty-nine never matter. -/
theorem c9_profile_key_normalization (file sheet : String) (h1 h2 : List String)
    (h : (h1.take 30).map _norm = (h2.take 30).map _norm) :
    profile_key file sheet h1 = profile_key file sheet h2 :=
  profile_key_congr file sheet h1 h2 h

/-- Witness for c9_profile_key_normalization at concrete inputs. -/
theorem c9_profile_key_normalization_witness :
    profile_key "f.xlsx" "Sheet1" ["  UNITS "]
      = profile_key "f.xlsx" "Sheet1" ["units"] :=
  c9_profile_key_normalization "f.xlsx" "Sheet1" ["  UNITS "] ["units"] (by decide)

/-- C10: whenever the date parser returns dates, the report date and month
start with the digits 20 followed by the two-digit year from the file name;
the name containing ending 12-31-99 yields 2099-12-31, never a 19xx year. -/
theorem c10_year_2000s :
    (∀ name d m, _parse_dates_from_name name = (some d, some m) →
      ∃ mm dd yy, d = "20" ++ yy ++ "-" ++ mm ++ "-" ++ dd
        ∧ m = "20" ++ yy ++ "-" ++ mm ++ "-01")
    ∧ _parse_dates_from_name "x ending 12-31-99"
        = (some "2099-12-31", some "2099-12-01") := by
  constructor
  · intro name d m h
    unfold _parse_dates_from_name at h
    cases hs : scanEnding (pyLower name).toList with
    | none => rw [hs] at h; simp at h
    | some r =>
      obtain ⟨mm, dd, yy⟩ := r
      rw [hs] at h
      simp only [Prod.mk.injEq, Option.some.injEq] at h
      obtain ⟨hd, hm⟩ := h
      exact ⟨mm, dd, yy, hd.symm, hm.symm⟩
  · rfl

/-- Witness for c10_year_2000s at a concrete file name. -/
theorem c10_year_2000s_witness :
    ∃ mm dd yy, "2099-12-31" = "20" ++ yy ++ "-" ++ mm ++ "-" ++ dd
      ∧ "2099-12-01" = "20" ++ yy ++ "-" ++ mm ++ "-01" :=
  c10_year_2000s.1 "x ending 12-31-99" "2099-12-31" "2099-12-01" rfl

end NeoleaSpec
